import Mathlib

/-!
Verification development for the Inventory-view Dashboard (src/app.py).

The program is a pandas pipeline: load_data parses timestamps
(errors coerced to NaT), converts to a display timezone (falling back to
UTC with a warning when conversion fails), derives a calendar month,
keeps only rows with status complete and defaults the inventory column;
main then filters by the selected month/asset/inventory, computes a
per-group latest balance (stable sort by timestamp, then the last
non-null assetBalance per group), per-group gain/loss sums, left-merges
the two tables on the grouping key and sums the numeric columns into
summary totals.

The embedding below mirrors those steps.  Timestamps are minutes since
the Unix epoch (Int); a cell that pandas would hold as NaN/NaT is an
Option none.  Decimal cells are exact amounts modelled as integers
(scaled units, e.g. cents; a NaN cell is none).  Column presence in the
CSV is tracked by Boolean flags on the frame; accessing a missing
column is a KeyError, modelled as an Except error.  The datetime parser
and the timezone database are parameters (they stand for pd.to_datetime
with errors coerced, and for the tz database used by tz_convert, which
yields a fixed offset in minutes for a valid zone name).
-/

/-- One raw CSV row: every cell may be empty (none stands for NaN). -/
structure RawRow where
  timestamp : Option String
  status : Option String
  asset : Option String
  inventory : Option String
  assetBalance : Option ℤ
  shortTermGainLoss : Option ℤ
  longTermGainLoss : Option ℤ
  impairmentExpense : Option ℤ
  impairmentReversal : Option ℤ
deriving DecidableEq

/-- A raw data frame: rows plus which columns exist in the uploaded CSV.
When a presence flag is false the corresponding row fields are
meaningless (the column is simply not there). -/
structure RawFrame where
  rows : List RawRow
  hasTimestamp : Bool
  hasStatus : Bool
  hasAsset : Bool
  hasInventory : Bool
  hasAssetBalance : Bool
  hasShortTermGainLoss : Bool
  hasLongTermGainLoss : Bool
  hasImpairmentExpense : Bool
  hasImpairmentReversal : Bool
deriving DecidableEq

/-- A normalized row, after load_data: the parsed (and timezone
shifted) instant, the derived month, and the surviving raw fields. -/
structure NRow where
  instant : Option Int
  month : Option Int
  status : Option String
  asset : Option String
  inventory : Option String
  assetBalance : Option ℤ
  shortTermGainLoss : Option ℤ
  longTermGainLoss : Option ℤ
  impairmentExpense : Option ℤ
  impairmentReversal : Option ℤ
deriving DecidableEq

/-- A normalized frame: rows plus the column-presence flags that the
rest of the pipeline consults (the month and timestamp columns always
exist after load_data, so they need no flag). -/
structure NFrame where
  rows : List NRow
  hasAsset : Bool
  hasInventory : Bool
  hasAssetBalance : Bool
  hasShortTermGainLoss : Bool
  hasLongTermGainLoss : Bool
  hasImpairmentExpense : Bool
  hasImpairmentReversal : Bool
deriving DecidableEq

/-- Errors of the pipeline; pandas raises KeyError when a missing
column is accessed. -/
inductive DataError where
  | keyError : DataError
deriving DecidableEq

/-- Calendar month of a day count (days since 1970-01-01), encoded as
year * 12 + (month - 1).  Standard civil-calendar conversion, mirroring
the to_period M derivation of pandas. -/
def monthOfDay (z0 : Int) : Int :=
  let z := z0 + 719468
  let era := z.fdiv 146097
  let doe := z - era * 146097
  let yoe := (doe - doe.fdiv 1460 + doe.fdiv 36524 - doe.fdiv 146096).fdiv 365
  let y := yoe + era * 400
  let doy := doe - (365 * yoe + yoe.fdiv 4 - yoe.fdiv 100)
  let mp := (5 * doy + 2).fdiv 153
  let m := if mp < 10 then mp + 3 else mp - 9
  let y2 := if m ≤ 2 then y + 1 else y
  y2 * 12 + (m - 1)

/-- Calendar month of an instant given in minutes since the epoch. -/
def monthOfMin (t : Int) : Int := monthOfDay (t.fdiv 1440)

/-- Comparison used by sort_values on the timestamp column: ordinary
order on instants, with NaT (none) placed last (na_position last). -/
def leInstant : Option Int → Option Int → Bool
  | none, none => true
  | none, some _ => false
  | some _, none => true
  | some x, some y => decide (x ≤ y)

/-- Row comparison for the stable sort by timestamp. -/
def tsLe (a b : NRow) : Prop := leInstant a.instant b.instant = true

instance : DecidableRel tsLe := fun a b => instDecidableEqBool _ _

/-- Normalization of a single raw row: parse the timestamp cell (an
unparseable or empty cell gives none, as pandas to_datetime with
errors coerced), shift by the timezone offset, and derive the month. -/
def enrich (parse : String → Option Int) (off : Int) (r : RawRow) : NRow :=
  let t := (r.timestamp.bind parse).map (· + off)
  { instant := t
    month := t.map monthOfMin
    status := r.status
    asset := r.asset
    inventory := r.inventory
    assetBalance := r.assetBalance
    shortTermGainLoss := r.shortTermGainLoss
    longTermGainLoss := r.longTermGainLoss
    impairmentExpense := r.impairmentExpense
    impairmentReversal := r.impairmentReversal }

/-- Rows of the raw frame whose status cell equals complete, in input
order (the status filter of load_data, line 17 of app.py). -/
def survivors (df : RawFrame) : List RawRow :=
  df.rows.filter (fun r => r.status = some "complete")

/-- Embedding of load_data (app.py lines 6-25).  The parse parameter
stands for pd.to_datetime with errors coerced and utc set; tzdb maps a
timezone name to its offset in minutes when the name is valid.  Reading
the timestamp or status column of a frame that lacks it is a KeyError;
an invalid timezone makes tz_convert raise, which the bare except turns
into a warning while the timestamps stay in UTC (offset 0).  Returns
the normalized frame together with the warning flag. -/
def load_data (parse : String → Option Int) (tzdb : String → Option Int)
    (df : RawFrame) (tz : String) : Except DataError (NFrame × Bool) :=
  if df.hasTimestamp = false then .error .keyError else
  let conv := tzdb tz
  let off := conv.getD 0
  let warn := conv.isNone
  if df.hasStatus = false then .error .keyError else
  let rows1 := df.rows.map (enrich parse off)
  let rows2 := rows1.filter (fun r => r.status = some "complete")
  let rows3 :=
    if df.hasInventory then
      rows2.map (fun r => { r with inventory := some (r.inventory.getD "Unspecified") })
    else
      rows2.map (fun r => { r with inventory := some "Unspecified" })
  .ok ({ rows := rows3
         hasAsset := df.hasAsset
         hasInventory := true
         hasAssetBalance := df.hasAssetBalance
         hasShortTermGainLoss := df.hasShortTermGainLoss
         hasLongTermGainLoss := df.hasLongTermGainLoss
         hasImpairmentExpense := df.hasImpairmentExpense
         hasImpairmentReversal := df.hasImpairmentReversal }, warn)

/-- Grouping key of the aggregation: (month, asset, inventory). -/
abbrev GroupKey := Int × String × String

/-- Key of a row; none when any key column is null (groupby drops such
rows from every group). -/
def keyOf (r : NRow) : Option GroupKey :=
  match r.month, r.asset, r.inventory with
  | some m, some a, some i => some (m, a, i)
  | _, _, _ => none

/-- Lexicographic strict order on character lists (the code-point
order used when sorting string values). -/
def charListLt : List Char → List Char → Bool
  | [], [] => false
  | [], _ :: _ => true
  | _ :: _, [] => false
  | a :: as, b :: bs =>
    if a < b then true else if b < a then false else charListLt as bs

/-- Strict lexicographic order on strings. -/
def strLtB (a b : String) : Bool := charListLt a.data b.data

/-- Reflexive lexicographic order on strings. -/
def strLeB (a b : String) : Bool := !(charListLt b.data a.data)

/-- Lexicographic order on group keys (groupby sorts its keys). -/
def keyLe (a b : GroupKey) : Prop :=
  a.1 < b.1 ∨ (a.1 = b.1 ∧
    (strLtB a.2.1 b.2.1 = true ∨ (a.2.1 = b.2.1 ∧ strLeB a.2.2 b.2.2 = true)))

instance : DecidableRel keyLe := fun a b => by
  unfold keyLe; infer_instance

/-- Distinct group keys of a row list, sorted (the key set produced by
groupby over month, asset, inventory). -/
def keysOf (rows : List NRow) : List GroupKey :=
  List.insertionSort keyLe (rows.filterMap keyOf).dedup

/-- Members of one group, in the order they occur in the given list. -/
def groupRows (rows : List NRow) (k : GroupKey) : List NRow :=
  rows.filter (fun r => keyOf r = some k)

/-- Last non-null value of a column, the per-column behaviour of the
groupby last aggregation of pandas. -/
def lastSome {α : Type} (l : List (Option α)) : Option α :=
  l.foldl (fun acc x => match x with | some v => some v | none => acc) none

/-- Ending balance of a group (app.py lines 64-69): stable-sort the
filtered rows by timestamp ascending, restrict to the group, and take
the last non-null assetBalance. -/
def endingBalance (rows : List NRow) (k : GroupKey) : Option ℤ :=
  lastSome ((groupRows (List.insertionSort tsLe rows) k).map (·.assetBalance))

/-- Sum of a numeric column over a group; null cells are skipped by the
groupby sum of pandas, hence count as 0. -/
def sumWith (f : NRow → Option ℤ) (g : List NRow) : ℤ :=
  (g.map (fun r => (f r).getD 0)).sum

/-- Embedding of the filter block (app.py lines 57-61): keep the rows
of the selected month, then restrict by asset and by inventory unless
the selection is the sentinel All. -/
def filterStep (nf : NFrame) (selMonth : Int) (selAsset selInventory : String) :
    List NRow :=
  let f1 := nf.rows.filter (fun r => r.month = some selMonth)
  let f2 := if selAsset = "All" then f1
            else f1.filter (fun r => r.asset = some selAsset)
  if selInventory = "All" then f2
  else f2.filter (fun r => r.inventory = some selInventory)

/-- One row of the combined table: the grouping key, the gain/loss sums
(impairment sums present only when the source column exists) and the
ending balance obtained by the left merge. -/
structure AggRow where
  month : Int
  asset : String
  inventory : String
  shortTermGainLoss : ℤ
  longTermGainLoss : ℤ
  impairmentExpense : Option ℤ
  impairmentReversal : Option ℤ
  ending_balance : Option ℤ
deriving DecidableEq

/-- Summary totals (app.py lines 94-109): impairment totals only when
the respective column exists. -/
structure Totals where
  shortTermGainLoss : ℤ
  longTermGainLoss : ℤ
  impairmentExpense : Option ℤ
  impairmentReversal : Option ℤ
deriving DecidableEq

/-- Result of the computation in main after a file is loaded: the
dropdown value domains, the combined table and the summary totals. -/
structure Report where
  months : List Int
  assets : List String
  inventories : List String
  combined : List AggRow
  totals : Totals
deriving DecidableEq

/-- One combined row (gain/loss sums for the key, left-merged with the
balance table entry for the same key; a key absent from the balance
table leaves the balance null). -/
def aggRowOf (nf : NFrame) (filtered : List NRow)
    (balTable : List (GroupKey × Option ℤ)) (k : GroupKey) : AggRow :=
  let g := groupRows filtered k
  { month := k.1
    asset := k.2.1
    inventory := k.2.2
    shortTermGainLoss := sumWith (·.shortTermGainLoss) g
    longTermGainLoss := sumWith (·.longTermGainLoss) g
    impairmentExpense :=
      if nf.hasImpairmentExpense then some (sumWith (·.impairmentExpense) g) else none
    impairmentReversal :=
      if nf.hasImpairmentReversal then some (sumWith (·.impairmentReversal) g) else none
    ending_balance := (balTable.find? (fun e => e.1 = k)).bind (·.2) }

/-- Month dropdown domain (app.py line 48): sorted distinct non-null
months. -/
def monthsDomain (nf : NFrame) : List Int :=
  List.insertionSort (· ≤ ·) (nf.rows.filterMap (fun r => r.month)).dedup

/-- Asset dropdown domain (app.py line 49). -/
def assetsDomain (nf : NFrame) : List String :=
  List.insertionSort (fun a b => strLeB a b = true)
    (nf.rows.filterMap (fun r => r.asset)).dedup

/-- Inventory dropdown domain (app.py line 50). -/
def inventoriesDomain (nf : NFrame) : List String :=
  List.insertionSort (fun a b => strLeB a b = true)
    (nf.rows.filterMap (fun r => r.inventory)).dedup

/-- Balance sub-table (app.py lines 64-69): one entry per group key
with the group's last non-null assetBalance after the timestamp sort. -/
def balTableOf (filtered : List NRow) : List (GroupKey × Option ℤ) :=
  (keysOf filtered).map (fun k => (k, endingBalance filtered k))

/-- Combined table (gain/loss groupby of app.py lines 80-84 left-merged
with the balance sub-table at lines 86-91): one aggregate row per group
key of the filtered records. -/
def combinedOf (nf : NFrame) (filtered : List NRow) : List AggRow :=
  (keysOf filtered).map (aggRowOf nf filtered (balTableOf filtered))

/-- Summary totals (app.py lines 94-109) of a combined table. -/
def totalsOf (nf : NFrame) (combined : List AggRow) : Totals :=
  { shortTermGainLoss := (combined.map (fun r => r.shortTermGainLoss)).sum
    longTermGainLoss := (combined.map (fun r => r.longTermGainLoss)).sum
    impairmentExpense :=
      if nf.hasImpairmentExpense then
        some ((combined.map (fun r => r.impairmentExpense.getD 0)).sum) else none
    impairmentReversal :=
      if nf.hasImpairmentReversal then
        some ((combined.map (fun r => r.impairmentReversal.getD 0)).sum) else none }

/-- Embedding of the reporting computation of main after load_data
(app.py lines 48-109): dropdown domains, the month/asset/inventory
filter, the latest-balance groupby, the gain/loss groupby, the left
merge and the summary totals.  Accessing a column missing from the
frame is a KeyError at the corresponding step (asset at line 49,
inventory at line 50, assetBalance at line 67, the gain/loss columns at
lines 80-84). -/
def buildReport (nf : NFrame) (selMonth : Int) (selAsset selInventory : String) :
    Except DataError Report :=
  if nf.hasAsset = false then .error .keyError else
  if nf.hasInventory = false then .error .keyError else
  let filtered := filterStep nf selMonth selAsset selInventory
  if nf.hasAssetBalance = false then .error .keyError else
  if nf.hasShortTermGainLoss = false then .error .keyError else
  if nf.hasLongTermGainLoss = false then .error .keyError else
  .ok { months := monthsDomain nf
        assets := assetsDomain nf
        inventories := inventoriesDomain nf
        combined := combinedOf nf filtered
        totals := totalsOf nf (combinedOf nf filtered) }

/-- Later-wins choice between two rows: the second row when its
instant is at least the instant of the first (so among equal
timestamps a later row in the traversal replaces an earlier one). -/
def pickLater (acc r : NRow) : NRow :=
  if leInstant acc.instant r.instant then r else acc

/-- Modelled from the spec: the chronologically latest record of a
group, ties broken by input order (the record occurring last in the
original order among those sharing the maximum timestamp); none for an
empty group.  This is the record the spec says supplies the ending
balance. -/
def latestRec : List NRow → Option NRow
  | [] => none
  | a :: l => some (l.foldl pickLater a)

/-- Assets present among the rows of a given month (the per-asset index
set of the aggregation-additivity property). -/
def assetsInPeriod (nf : NFrame) (p : Int) : List String :=
  ((nf.rows.filter (fun r => r.month = some p)).filterMap (·.asset)).dedup

/-- Asset of a row that the grouping keeps, none for rows groupby
drops (used to partition grouped records by asset). -/
def assetKey (r : NRow) : Option String :=
  if (keyOf r).isSome then r.asset else none

/-- Short-term total of a report, 0 on error (extractor used to state
summation over per-asset runs). -/
def stOf (e : Except DataError Report) : ℤ :=
  match e with
  | .ok r => r.totals.shortTermGainLoss
  | .error _ => 0

/-- Long-term total of a report, 0 on error. -/
def ltOf (e : Except DataError Report) : ℤ :=
  match e with
  | .ok r => r.totals.longTermGainLoss
  | .error _ => 0

/-- Impairment-expense total of a report, 0 on error or when absent. -/
def ieOf (e : Except DataError Report) : ℤ :=
  match e with
  | .ok r => (r.totals.impairmentExpense).getD 0
  | .error _ => 0

/-- Impairment-reversal total of a report, 0 on error or when absent. -/
def irOf (e : Except DataError Report) : ℤ :=
  match e with
  | .ok r => (r.totals.impairmentReversal).getD 0
  | .error _ => 0

/-- Number of output rows of a load_data result, 0 on error (used to
state that normalization produced output). -/
def loadRowCount (e : Except DataError (NFrame × Bool)) : Nat :=
  match e with
  | .ok (nf, _) => nf.rows.length
  | .error _ => 0

/-- Inventory defaulting applied after the status filter: when the
column exists only null cells become Unspecified, otherwise the whole
column is set to Unspecified. -/
def invDefault (hasInv : Bool) (r : NRow) : NRow :=
  if hasInv then { r with inventory := some (r.inventory.getD "Unspecified") }
  else { r with inventory := some "Unspecified" }

/-- Full normalization of one surviving raw row. -/
def normRow (parse : String → Option Int) (off : Int) (hasInv : Bool) (r : RawRow) : NRow :=
  invDefault hasInv (enrich parse off r)

/-- Closed form of the frame returned by load_data on valid input. -/
def normOut (parse : String → Option Int) (tzdb : String → Option Int)
    (df : RawFrame) (tz : String) : NFrame :=
  { rows := (survivors df).map (normRow parse ((tzdb tz).getD 0) df.hasInventory)
    hasAsset := df.hasAsset
    hasInventory := true
    hasAssetBalance := df.hasAssetBalance
    hasShortTermGainLoss := df.hasShortTermGainLoss
    hasLongTermGainLoss := df.hasLongTermGainLoss
    hasImpairmentExpense := df.hasImpairmentExpense
    hasImpairmentReversal := df.hasImpairmentReversal }

/-- Identity fields of a raw row that normalization carries through
unchanged (everything except timestamp and inventory). -/
def RawRow.core (r : RawRow) :
    Option String × Option String × Option ℤ × Option ℤ × Option ℤ × Option ℤ × Option ℤ :=
  (r.status, r.asset, r.assetBalance, r.shortTermGainLoss, r.longTermGainLoss,
   r.impairmentExpense, r.impairmentReversal)

/-- The same identity fields read off a normalized row. -/
def NRow.core (r : NRow) :
    Option String × Option String × Option ℤ × Option ℤ × Option ℤ × Option ℤ × Option ℤ :=
  (r.status, r.asset, r.assetBalance, r.shortTermGainLoss, r.longTermGainLoss,
   r.impairmentExpense, r.impairmentReversal)

/-- Concrete datetime parser used by the witnesses: three fixed
calendar dates are parseable, everything else fails.  The minute values
are the real minutes since the epoch of those dates. -/
def parse0 : String → Option Int := fun s =>
  if s = "2024-01-05" then some 28406880
  else if s = "2024-01-20" then some 28428480
  else if s = "2024-02-01" then some 28445760
  else none

/-- Concrete timezone database used by the witnesses: only UTC is a
valid zone. -/
def tzdb0 : String → Option Int := fun s => if s = "UTC" then some 0 else none

/-- Placeholder aggregate row used by total extractors on error. -/
def dummyAggRow : AggRow :=
  { month := 0, asset := "", inventory := "", shortTermGainLoss := 0,
    longTermGainLoss := 0, impairmentExpense := none, impairmentReversal := none,
    ending_balance := none }

/-- Placeholder normalized row. -/
def dummyNRow : NRow :=
  { instant := none, month := none, status := none, asset := none, inventory := none,
    assetBalance := none, shortTermGainLoss := none, longTermGainLoss := none,
    impairmentExpense := none, impairmentReversal := none }

/-- Report extractor, with an empty report on error. -/
def reportOf (e : Except DataError Report) : Report :=
  match e with
  | .ok r => r
  | .error _ =>
    { months := [], assets := [], inventories := [], combined := [],
      totals := { shortTermGainLoss := 0, longTermGainLoss := 0,
                  impairmentExpense := none, impairmentReversal := none } }

/-- Normalized-frame extractor, with an empty frame on error. -/
def nfOf (e : Except DataError (NFrame × Bool)) : NFrame :=
  match e with
  | .ok (nf, _) => nf
  | .error _ =>
    { rows := [], hasAsset := false, hasInventory := false, hasAssetBalance := false,
      hasShortTermGainLoss := false, hasLongTermGainLoss := false,
      hasImpairmentExpense := false, hasImpairmentReversal := false }

/-- Shorthand raw-row constructor for concrete inputs (impairment
columns empty). -/
def mkRaw (ts st a inv : Option String) (bal stg ltg : Option ℤ) : RawRow :=
  { timestamp := ts, status := st, asset := a, inventory := inv, assetBalance := bal,
    shortTermGainLoss := stg, longTermGainLoss := ltg,
    impairmentExpense := none, impairmentReversal := none }

/-- Shorthand normalized-row constructor for concrete inputs: month is
derived from the instant, status is complete. -/
def mkN (t : Option Int) (a i : String) (bal stg : Option ℤ) : NRow :=
  { instant := t, month := t.map monthOfMin, status := some "complete",
    asset := some a, inventory := some i, assetBalance := bal,
    shortTermGainLoss := stg, longTermGainLoss := some 0,
    impairmentExpense := none, impairmentReversal := none }

/-- Concrete upload whose asset column is missing entirely. -/
def dfNoAsset : RawFrame :=
  { rows := [mkRaw (some "2024-01-05") (some "complete") none (some "A")
      (some 1) (some 1) (some 1)]
    hasTimestamp := true, hasStatus := true, hasAsset := false, hasInventory := true
    hasAssetBalance := true, hasShortTermGainLoss := true, hasLongTermGainLoss := true
    hasImpairmentExpense := false, hasImpairmentReversal := false }

/-- Concrete upload with one group (asset X) whose only record has an
unparseable timestamp and one group (asset Y) with a parseable one. -/
def dfMixed : RawFrame :=
  { rows := [mkRaw (some "not-a-date") (some "complete") (some "X") (some "A")
      none (some 5) (some 0),
      mkRaw (some "2024-01-05") (some "complete") (some "Y") (some "A")
      (some 100) (some 2) (some 0),
      mkRaw (some "2024-01-20") (some "skipped") (some "Y") (some "A")
      (some 7) (some 9) (some 0)]
    hasTimestamp := true, hasStatus := true, hasAsset := true, hasInventory := true
    hasAssetBalance := true, hasShortTermGainLoss := true, hasLongTermGainLoss := true
    hasImpairmentExpense := false, hasImpairmentReversal := false }

/-- Concrete normalized group in which the chronologically latest
record has a null assetBalance while an earlier record has 100. -/
def rowsNullLatest : List NRow :=
  [mkN (some 28406880) "X" "M" (some 100) (some 1),
   mkN (some 28428480) "X" "M" none (some 2)]

/-- Key of that group: January 2024, asset X, inventory M. -/
def keyXM : GroupKey := (24288, "X", "M")

/-- Concrete normalized group matching the balance example of the
spec: balances 100 then 150 on later dates. -/
def rowsTwoBal : List NRow :=
  [mkN (some 28406880) "X" "M" (some 100) (some 1),
   mkN (some 28428480) "X" "M" (some 150) (some 2)]

/-- Concrete normalized frame containing an asset literally named All
next to an ordinary asset, in the same month. -/
def nfAllAsset : NFrame :=
  { rows := [mkN (some 28406880) "All" "I" (some 1) (some 1),
             mkN (some 28428480) "B" "I" (some 2) (some 2)]
    hasAsset := true, hasInventory := true, hasAssetBalance := true
    hasShortTermGainLoss := true, hasLongTermGainLoss := true
    hasImpairmentExpense := false, hasImpairmentReversal := false }

/-- Normalized frame obtained from the mixed fixture. -/
def nfMixed : NFrame := nfOf (load_data parse0 tzdb0 dfMixed "UTC")

/-- Report of the mixed fixture for January 2024, no asset or
inventory restriction. -/
def repMixed : Report := reportOf (buildReport nfMixed 24288 "All" "All")

/-- The single combined row of that report: the Y group of January
2024 with its gain sum and latest balance. -/
def rowY : AggRow :=
  { month := 24288, asset := "Y", inventory := "A", shortTermGainLoss := 2,
    longTermGainLoss := 0, impairmentExpense := none, impairmentReversal := none,
    ending_balance := some 100 }

/-- Normalized form of the parseable record of the mixed fixture. -/
def rmaxY : NRow := mkN (some 28406880) "Y" "A" (some 100) (some 2)

instance : IsTotal NRow tsLe :=
  ⟨fun a b => by
    unfold tsLe
    cases a.instant <;> cases b.instant <;> simp [leInstant]
    exact Int.le_total _ _⟩

instance : IsTrans NRow tsLe :=
  ⟨fun a b c => by
    unfold tsLe
    cases a.instant <;> cases b.instant <;> cases c.instant <;>
      simp_all [leInstant] <;> omega⟩

/-! Helper lemmas about load_data. -/

theorem load_data_eq (parse : String → Option Int) (tzdb : String → Option Int)
    (df : RawFrame) (tz : String)
    (h1 : df.hasTimestamp = true) (h2 : df.hasStatus = true) :
    load_data parse tzdb df tz = .ok (normOut parse tzdb df tz, (tzdb tz).isNone) := by
  unfold load_data normOut normRow survivors
  cases hInv : df.hasInventory
  · simp only [h1, h2, hInv, Bool.true_eq_false, Bool.false_eq_true, reduceIte,
      List.filter_map, List.map_map]
    rfl
  · simp only [h1, h2, hInv, Bool.true_eq_false, Bool.false_eq_true, reduceIte,
      List.filter_map, List.map_map]
    rfl

theorem normRow_status (parse : String → Option Int) (off : Int) (hinv : Bool) (r : RawRow) :
    (normRow parse off hinv r).status = r.status := by
  cases hinv <;> rfl

theorem normRow_core (parse : String → Option Int) (off : Int) (hinv : Bool) (r : RawRow) :
    NRow.core (normRow parse off hinv r) = RawRow.core r := by
  cases hinv <;> rfl

theorem normRow_instant (parse : String → Option Int) (off : Int) (hinv : Bool) (r : RawRow) :
    (normRow parse off hinv r).instant = (r.timestamp.bind parse).map (· + off) := by
  cases hinv <;> rfl

theorem normRow_month (parse : String → Option Int) (off : Int) (hinv : Bool) (r : RawRow) :
    (normRow parse off hinv r).month = ((r.timestamp.bind parse).map (· + off)).map monthOfMin := by
  cases hinv <;> rfl

theorem keyOf_none_not_mem_groupRows (r : NRow) (hk : keyOf r = none)
    (l : List NRow) (k : GroupKey) : r ∉ groupRows l k := by
  intro hmem
  have h := (List.mem_filter.1 hmem).2
  simp only [decide_eq_true_eq] at h
  rw [hk] at h
  exact Option.noConfusion h

theorem month_none_keyOf_none (r : NRow) (hm : r.month = none) : keyOf r = none := by
  unfold keyOf
  rw [hm]

/-- C5: for every input with the required columns and every invalid
timezone identifier, normalization does not raise: it returns normally,
signals exactly one warning (the warning flag of the pair), and every
instant is computed with the UTC offset — the result frame is the one
the UTC run produces. -/
theorem c5_tz_fallback (parse : String → Option Int) (tzdb : String → Option Int)
    (df : RawFrame) (tz : String)
    (hbad : tzdb tz = none) (hutc : tzdb "UTC" = some 0)
    (h1 : df.hasTimestamp = true) (h2 : df.hasStatus = true) :
    ∃ nf, load_data parse tzdb df tz = .ok (nf, true) ∧
      load_data parse tzdb df "UTC" = .ok (nf, false) := by
  refine ⟨normOut parse tzdb df tz, ?_, ?_⟩
  · rw [load_data_eq parse tzdb df tz h1 h2, hbad]
    rfl
  · rw [load_data_eq parse tzdb df "UTC" h1 h2, hutc]
    have : normOut parse tzdb df tz = normOut parse tzdb df "UTC" := by
      unfold normOut
      rw [hbad, hutc]
      rfl
    rw [this]
    rfl

theorem c5_tz_fallback_witness :
    tzdb0 "Mars/Phobos" = none ∧
    ∃ nf, load_data parse0 tzdb0 dfMixed "Mars/Phobos" = .ok (nf, true) ∧
      load_data parse0 tzdb0 dfMixed "UTC" = .ok (nf, false) :=
  ⟨rfl, c5_tz_fallback parse0 tzdb0 dfMixed "Mars/Phobos" rfl rfl rfl rfl⟩

/-- C8: the normalizer's output is exactly the input records whose
status equals complete, in input order (witnessed by the equality of
the untouched identity fields), its size is at most the input size, and
an empty input yields an empty output with no error. -/
theorem c8_status_filter (parse : String → Option Int) (tzdb : String → Option Int)
    (df : RawFrame) (tz : String)
    (h1 : df.hasTimestamp = true) (h2 : df.hasStatus = true) :
    ∃ nf warn, load_data parse tzdb df tz = .ok (nf, warn) ∧
      nf.rows.length = (survivors df).length ∧
      nf.rows.length ≤ df.rows.length ∧
      (∀ r ∈ nf.rows, r.status = some "complete") ∧
      nf.rows.map NRow.core = (survivors df).map RawRow.core ∧
      (df.rows = [] → nf.rows = []) := by
  refine ⟨normOut parse tzdb df tz, (tzdb tz).isNone,
    load_data_eq parse tzdb df tz h1 h2, ?_, ?_, ?_, ?_, ?_⟩
  · simp [normOut]
  · simp only [normOut, List.length_map]
    exact List.length_filter_le _ _
  · intro r hr
    rcases List.mem_map.1 hr with ⟨r0, hr0, hEq⟩
    have hst := (List.mem_filter.1 hr0).2
    simp only [decide_eq_true_eq] at hst
    rw [← hEq, normRow_status]
    exact hst
  · simp only [normOut, List.map_map]
    exact List.map_congr_left (fun r _ => normRow_core _ _ _ r)
  · intro hempty
    simp [normOut, survivors, hempty]

theorem c8_status_filter_witness :
    ∃ nf warn, load_data parse0 tzdb0 dfMixed "UTC" = .ok (nf, warn) ∧
      nf.rows.length = (survivors dfMixed).length ∧
      nf.rows.length ≤ dfMixed.rows.length ∧
      (∀ r ∈ nf.rows, r.status = some "complete") ∧
      nf.rows.map NRow.core = (survivors dfMixed).map RawRow.core ∧
      (dfMixed.rows = [] → nf.rows = []) :=
  c8_status_filter parse0 tzdb0 dfMixed "UTC" rfl rfl

/-- Helper: buildReport fails with a KeyError whenever the asset column
is missing, or the inventory column exists but one of assetBalance,
shortTermGainLoss, longTermGainLoss is missing. -/
theorem buildReport_error_of_missing (nf : NFrame) (m : Int) (a inv : String)
    (h : nf.hasAsset = false ∨ (nf.hasAssetBalance = false ∨
         nf.hasShortTermGainLoss = false ∨ nf.hasLongTermGainLoss = false)) :
    buildReport nf m a inv = .error .keyError := by
  unfold buildReport
  by_cases hA : nf.hasAsset = false
  · simp [hA]
  · rcases h with h | h
    · exact absurd h hA
    · by_cases hI : nf.hasInventory = false
      · simp [hA, hI]
      · rcases h with h | h | h
        · simp [hA, hI, h]
        · by_cases hB : nf.hasAssetBalance = false
          · simp [hA, hI, hB]
          · simp [hA, hI, hB, h]
        · by_cases hB : nf.hasAssetBalance = false
          · simp [hA, hI, hB]
          · by_cases hS : nf.hasShortTermGainLoss = false
            · simp [hA, hI, hB, hS]
            · simp [hA, hI, hB, hS, h]

/-- C2 (amended): normalization does not itself validate the four
required columns asset, assetBalance, shortTermGainLoss and
longTermGainLoss: with any of them missing it still completes and
returns its normalized output; the schema error surfaces only later,
as a KeyError aborting the aggregation stage, whatever the filter
selection. -/
theorem c2_missing_column_deferred (parse : String → Option Int)
    (tzdb : String → Option Int) (df : RawFrame) (tz : String)
    (h1 : df.hasTimestamp = true) (h2 : df.hasStatus = true)
    (hmiss : df.hasAsset = false ∨ df.hasAssetBalance = false ∨
             df.hasShortTermGainLoss = false ∨ df.hasLongTermGainLoss = false) :
    ∃ nf w, load_data parse tzdb df tz = .ok (nf, w) ∧
      ∀ m a inv, buildReport nf m a inv = .error .keyError := by
  refine ⟨normOut parse tzdb df tz, (tzdb tz).isNone,
    load_data_eq parse tzdb df tz h1 h2, ?_⟩
  intro m a inv
  apply buildReport_error_of_missing
  simpa [normOut] using hmiss

theorem c2_missing_column_deferred_witness :
    dfNoAsset.hasAsset = false ∧
    ∃ nf w, load_data parse0 tzdb0 dfNoAsset "UTC" = .ok (nf, w) ∧
      ∀ m a inv, buildReport nf m a inv = .error .keyError :=
  ⟨rfl, c2_missing_column_deferred parse0 tzdb0 dfNoAsset "UTC" rfl rfl (Or.inl rfl)⟩

/-- C2 counterexample: on a concrete upload whose asset column is
completely missing, normalization does not abort and does produce
output — load_data succeeds and returns one normalized record, contrary
to the claim that it signals a fatal schema error with no partial
output. -/
theorem c2_counterexample :
    (load_data parse0 tzdb0 dfNoAsset "UTC").isOk = true ∧
    loadRowCount (load_data parse0 tzdb0 dfNoAsset "UTC") = 1 := by
  constructor <;> rfl

/-- C6: with the inventory column absent every normalized record gets
inventory Unspecified; with the column present, cell i of the output is
the corresponding surviving input cell with only null cells defaulted
to Unspecified. -/
theorem c6_inventory_default (parse : String → Option Int) (tzdb : String → Option Int)
    (df : RawFrame) (tz : String)
    (h1 : df.hasTimestamp = true) (h2 : df.hasStatus = true) :
    ∃ nf w, load_data parse tzdb df tz = .ok (nf, w) ∧
      nf.rows.length = (survivors df).length ∧
      (df.hasInventory = false → ∀ r ∈ nf.rows, r.inventory = some "Unspecified") ∧
      (df.hasInventory = true → ∀ (i : Nat) (hi : i < nf.rows.length)
        (hj : i < (survivors df).length),
        (nf.rows.get ⟨i, hi⟩).inventory =
          some (((survivors df).get ⟨i, hj⟩).inventory.getD "Unspecified")) := by
  refine ⟨normOut parse tzdb df tz, (tzdb tz).isNone,
    load_data_eq parse tzdb df tz h1 h2, by simp [normOut], ?_, ?_⟩
  · intro hInv r hr
    rcases List.mem_map.1 hr with ⟨r0, _, hEq⟩
    rw [← hEq]
    simp [normRow, invDefault, hInv]
  · intro hInv i hi hj
    simp only [normOut, List.get_eq_getElem, List.getElem_map]
    simp [normRow, invDefault, hInv, enrich]

theorem c6_inventory_default_witness :
    ∃ nf w, load_data parse0 tzdb0 dfMixed "UTC" = .ok (nf, w) ∧
      nf.rows.length = (survivors dfMixed).length ∧
      (dfMixed.hasInventory = false → ∀ r ∈ nf.rows, r.inventory = some "Unspecified") ∧
      (dfMixed.hasInventory = true → ∀ (i : Nat) (hi : i < nf.rows.length)
        (hj : i < (survivors dfMixed).length),
        (nf.rows.get ⟨i, hi⟩).inventory =
          some (((survivors dfMixed).get ⟨i, hj⟩).inventory.getD "Unspecified")) :=
  c6_inventory_default parse0 tzdb0 dfMixed "UTC" rfl rfl

/-- C7: a surviving record whose timestamp string fails to parse gets a
null instant and a null month (no exception is raised), and that record
belongs to no group the aggregation forms, for any filter selection. -/
theorem c7_unparseable_excluded (parse : String → Option Int) (tzdb : String → Option Int)
    (df : RawFrame) (tz : String) (i : Nat) (s : String)
    (h1 : df.hasTimestamp = true) (h2 : df.hasStatus = true)
    (hi : i < (survivors df).length)
    (hts : ((survivors df).get ⟨i, hi⟩).timestamp = some s)
    (hparse : parse s = none) :
    ∃ nf w, load_data parse tzdb df tz = .ok (nf, w) ∧
      ∃ r, nf.rows[i]? = some r ∧ r.instant = none ∧ r.month = none ∧
        ∀ m a inv k, r ∉ groupRows (filterStep nf m a inv) k := by
  refine ⟨normOut parse tzdb df tz, (tzdb tz).isNone,
    load_data_eq parse tzdb df tz h1 h2,
    normRow parse ((tzdb tz).getD 0) df.hasInventory ((survivors df).get ⟨i, hi⟩),
    ?_, ?_, ?_, ?_⟩
  · simp only [normOut, List.getElem?_map]
    rw [List.getElem?_eq_getElem hi]
    rfl
  · rw [normRow_instant, hts]
    simp [hparse]
  · rw [normRow_month, hts]
    simp [hparse]
  · intro m a inv k
    apply keyOf_none_not_mem_groupRows
    apply month_none_keyOf_none
    rw [normRow_month, hts]
    simp [hparse]

theorem c7_unparseable_excluded_witness :
    ((survivors dfMixed).get ⟨0, by decide⟩).timestamp = some "not-a-date" ∧
    parse0 "not-a-date" = none ∧
    ∃ nf w, load_data parse0 tzdb0 dfMixed "UTC" = .ok (nf, w) ∧
      ∃ r, nf.rows[0]? = some r ∧ r.instant = none ∧ r.month = none ∧
        ∀ m a inv k, r ∉ groupRows (filterStep nf m a inv) k :=
  ⟨rfl, rfl,
    c7_unparseable_excluded parse0 tzdb0 dfMixed "UTC" 0 "not-a-date" rfl rfl
      (by decide) rfl rfl⟩

/-! Order facts about the timestamp comparison. -/

theorem leInstant_trans {x y z : Option Int}
    (h1 : leInstant x y = true) (h2 : leInstant y z = true) : leInstant x z = true := by
  cases x <;> cases y <;> cases z <;> simp_all [leInstant] <;> omega

theorem leInstant_total (x y : Option Int) :
    leInstant x y = true ∨ leInstant y x = true := by
  cases x <;> cases y <;> simp [leInstant]
  exact Int.le_total _ _

theorem pickLater_assoc (a c d : NRow) :
    pickLater (pickLater a c) d = pickLater a (pickLater c d) := by
  unfold pickLater
  by_cases h1 : leInstant a.instant c.instant = true
  · by_cases h2 : leInstant c.instant d.instant = true
    · have h3 : leInstant a.instant d.instant = true := leInstant_trans h1 h2
      simp [h1, h2, h3]
    · simp [h1, h2]
  · by_cases h2 : leInstant c.instant d.instant = true
    · simp [h1, h2]
    · have hdc : leInstant d.instant c.instant = true :=
        (leInstant_total c.instant d.instant).resolve_left h2
      by_cases had : leInstant a.instant d.instant = true
      · exact absurd (leInstant_trans had hdc) h1
      · simp [h1, h2, had]

theorem foldl_pickLater_cons (l : List NRow) (a c : NRow) :
    l.foldl pickLater (pickLater a c) =
      if leInstant a.instant (l.foldl pickLater c).instant
      then l.foldl pickLater c else a := by
  induction l generalizing c with
  | nil => rfl
  | cons d t ih =>
    simp only [List.foldl_cons]
    rw [pickLater_assoc]
    exact ih (pickLater c d)

theorem getLast?_orderedInsert (a : NRow) (l : List NRow) (hs : l.Sorted tsLe)
    (M : NRow) (hM : l.getLast? = some M) :
    (List.orderedInsert tsLe a l).getLast? =
      some (if leInstant a.instant M.instant then M else a) := by
  induction l generalizing M with
  | nil => simp at hM
  | cons b t ih =>
    rw [List.sorted_cons] at hs
    by_cases hab : tsLe a b
    · simp only [List.orderedInsert, if_pos hab]
      rw [List.getLast?_cons_cons, hM]
      have hM_mem : M ∈ b :: t := List.mem_of_getLast?_eq_some hM
      have haM : leInstant a.instant M.instant = true := by
        rcases List.mem_cons.1 hM_mem with h | h
        · subst h; exact hab
        · exact leInstant_trans hab (hs.1 M h)
      rw [if_pos haM]
    · simp only [List.orderedInsert, if_neg hab]
      cases t with
      | nil =>
        have hMb : M = b := by
          simp only [List.getLast?_singleton, Option.some.injEq] at hM
          exact hM.symm
        subst hMb
        have hab' : ¬ (leInstant a.instant M.instant = true) := hab
        simp only [List.orderedInsert]
        rw [List.getLast?_cons_cons, List.getLast?_singleton, if_neg hab']
      | cons c' t' =>
        rw [List.getLast?_cons_cons] at hM
        have hrec := ih hs.2 M hM
        cases h0 : List.orderedInsert tsLe a (c' :: t') with
        | nil =>
          have hlen := congrArg List.length h0
          rw [List.orderedInsert_length] at hlen
          exact absurd hlen (by simp)
        | cons z zs =>
          rw [h0] at hrec
          rw [List.getLast?_cons_cons, hrec]

theorem getLast?_insertionSort (l : List NRow) :
    (List.insertionSort tsLe l).getLast? = latestRec l := by
  induction l with
  | nil => rfl
  | cons a l ih =>
    cases l with
    | nil => rfl
    | cons c t =>
      have hM : (List.insertionSort tsLe (c :: t)).getLast? = some (t.foldl pickLater c) := by
        rw [ih]; rfl
      have key := getLast?_orderedInsert a _ (List.sorted_insertionSort tsLe (c :: t)) _ hM
      show (List.orderedInsert tsLe a (List.insertionSort tsLe (c :: t))).getLast? =
        latestRec (a :: c :: t)
      rw [key]
      show _ = some ((c :: t).foldl pickLater a)
      rw [List.foldl_cons, foldl_pickLater_cons]

theorem orderedInsert_eq_cons (a : NRow) (L : List NRow) (h : ∀ y ∈ L, tsLe a y) :
    List.orderedInsert tsLe a L = a :: L := by
  cases L with
  | nil => rfl
  | cons y t =>
    simp only [List.orderedInsert]
    rw [if_pos (h y (List.mem_cons_self y t))]

theorem filter_orderedInsert_neg (p : NRow → Bool) (a : NRow) (hpa : p a = false)
    (L : List NRow) :
    (List.orderedInsert tsLe a L).filter p = L.filter p := by
  induction L with
  | nil => simp [List.orderedInsert, List.filter_cons, hpa]
  | cons b t ih =>
    by_cases hab : tsLe a b
    · simp only [List.orderedInsert, if_pos hab]
      simp [List.filter_cons, hpa]
    · simp only [List.orderedInsert, if_neg hab]
      simp [List.filter_cons, ih]

theorem filter_orderedInsert_pos (p : NRow → Bool) (a : NRow) (hpa : p a = true)
    (L : List NRow) (hs : L.Sorted tsLe) :
    (List.orderedInsert tsLe a L).filter p = List.orderedInsert tsLe a (L.filter p) := by
  induction L with
  | nil => simp [List.orderedInsert, List.filter_cons, hpa]
  | cons b t ih =>
    rw [List.sorted_cons] at hs
    by_cases hab : tsLe a b
    · simp only [List.orderedInsert, if_pos hab]
      by_cases hpb : p b = true
      · simp only [List.filter_cons, hpa, hpb, if_true]
        simp only [List.orderedInsert, if_pos hab]
      · simp only [List.filter_cons, hpa, hpb, if_true, if_false, Bool.false_eq_true]
        have hall : ∀ y ∈ t.filter p, tsLe a y := fun y hy =>
          leInstant_trans hab (hs.1 y (List.mem_of_mem_filter hy))
        rw [orderedInsert_eq_cons a _ hall]
    · simp only [List.orderedInsert, if_neg hab]
      by_cases hpb : p b = true
      · simp only [List.filter_cons, hpa, hpb, if_true]
        rw [ih hs.2]
        simp only [List.orderedInsert, if_neg hab]
      · simp only [List.filter_cons, hpb, if_false, Bool.false_eq_true]
        exact ih hs.2

theorem insertionSort_filter (p : NRow → Bool) (l : List NRow) :
    (List.insertionSort tsLe l).filter p = List.insertionSort tsLe (l.filter p) := by
  induction l with
  | nil => rfl
  | cons a t ih =>
    by_cases hpa : p a = true
    · show (List.orderedInsert tsLe a (List.insertionSort tsLe t)).filter p = _
      rw [filter_orderedInsert_pos p a hpa _ (List.sorted_insertionSort tsLe t), ih]
      rw [List.filter_cons, if_pos hpa]
      rfl
    · have hpa' : p a = false := by
        cases h : p a
        · rfl
        · exact absurd h hpa
      show (List.orderedInsert tsLe a (List.insertionSort tsLe t)).filter p = _
      rw [filter_orderedInsert_neg p a hpa', ih]
      rw [List.filter_cons, hpa']
      simp

theorem groupRows_insertionSort (rows : List NRow) (k : GroupKey) :
    groupRows (List.insertionSort tsLe rows) k =
      List.insertionSort tsLe (groupRows rows k) := by
  unfold groupRows
  exact insertionSort_filter _ rows

theorem lastSome_append_some {α : Type} (l : List (Option α)) (v : α) :
    lastSome (l ++ [some v]) = some v := by
  unfold lastSome
  rw [List.foldl_append]
  rfl

theorem lastSome_append_none {α : Type} (l : List (Option α)) :
    lastSome (l ++ [none]) = lastSome l := by
  unfold lastSome
  rw [List.foldl_append]
  rfl

theorem lastSome_map_balance (l : List NRow) :
    lastSome (l.map (fun r => r.assetBalance)) =
      (l.reverse.find? (fun r => r.assetBalance.isSome)).bind (fun r => r.assetBalance) := by
  induction l using List.reverseRecOn with
  | nil => rfl
  | append_singleton t x ih =>
    rw [List.map_append, List.reverse_append]
    simp only [List.reverse_cons, List.reverse_nil, List.nil_append, List.singleton_append,
      List.map_cons, List.map_nil]
    cases hx : x.assetBalance with
    | some v =>
      rw [lastSome_append_some]
      rw [List.find?_cons_of_pos _ (by simp [hx])]
      simp [hx]
    | none =>
      rw [lastSome_append_none, ih]
      rw [List.find?_cons_of_neg _ (by simp [hx])]

theorem endingBalance_of_latest (rows : List NRow) (k : GroupKey) (rmax : NRow) (b : ℤ)
    (hl : latestRec (groupRows rows k) = some rmax)
    (hb : rmax.assetBalance = some b) :
    endingBalance rows k = some b := by
  unfold endingBalance
  rw [groupRows_insertionSort]
  have hlast : (List.insertionSort tsLe (groupRows rows k)).getLast? = some rmax := by
    rw [getLast?_insertionSort]; exact hl
  have hne : List.insertionSort tsLe (groupRows rows k) ≠ [] := by
    intro h0
    rw [h0] at hlast
    exact Option.noConfusion hlast
  have hgl : (List.insertionSort tsLe (groupRows rows k)).getLast hne = rmax := by
    have h := List.getLast?_eq_getLast _ hne
    rw [h] at hlast
    exact Option.some.inj hlast
  conv_lhs => rw [← List.dropLast_append_getLast hne]
  rw [List.map_append, hgl]
  simp only [List.map_cons, List.map_nil, hb]
  exact lastSome_append_some _ b

/-- C1 (amended): for every group of filtered records whose
chronologically latest record (ties broken by input order, as the
stable ascending timestamp sort leaves tied records in input order) has
a present assetBalance, the ending balance of the group is exactly that
record's assetBalance. -/
theorem c1_ending_balance_is_latest (rows : List NRow) (k : GroupKey)
    (rmax : NRow) (b : ℤ)
    (hl : latestRec (groupRows rows k) = some rmax)
    (hb : rmax.assetBalance = some b) :
    endingBalance rows k = some b :=
  endingBalance_of_latest rows k rmax b hl hb

theorem c1_ending_balance_is_latest_witness :
    latestRec (groupRows rowsTwoBal keyXM) =
      some (mkN (some 28428480) "X" "M" (some 150) (some 2)) ∧
    endingBalance rowsTwoBal keyXM = some 150 :=
  ⟨by decide,
    c1_ending_balance_is_latest rowsTwoBal keyXM
      (mkN (some 28428480) "X" "M" (some 150) (some 2)) 150 (by decide) rfl⟩

/-- C1 counterexample: in a concrete group whose chronologically
latest record has a null assetBalance, the ending balance is not the
assetBalance of that latest record (it is the earlier record's 100, not
null), so the claim as stated fails. -/
theorem c1_counterexample :
    ¬ (endingBalance rowsNullLatest keyXM =
        (latestRec (groupRows rowsNullLatest keyXM)).bind (fun r => r.assetBalance)) := by
  decide

/-- C10: when the chronologically latest record of a group has a null
assetBalance, the groupby last aggregation skips null cells per column:
the ending balance equals the balance of the latest record that has a
non-null one (the first hit scanning the sorted group from the end),
and equally the ending balance of the group with its last record
removed. -/
theorem c10_last_skips_null (rows : List NRow) (k : GroupKey) (rN : NRow)
    (hlast : (groupRows (List.insertionSort tsLe rows) k).getLast? = some rN)
    (hnone : rN.assetBalance = none) :
    endingBalance rows k =
      ((groupRows (List.insertionSort tsLe rows) k).reverse.find?
        (fun r => r.assetBalance.isSome)).bind (fun r => r.assetBalance) ∧
    endingBalance rows k =
      lastSome (((groupRows (List.insertionSort tsLe rows) k).dropLast).map
        (fun r => r.assetBalance)) := by
  constructor
  · unfold endingBalance
    exact lastSome_map_balance _
  · unfold endingBalance
    have hne : groupRows (List.insertionSort tsLe rows) k ≠ [] := by
      intro h0
      rw [h0] at hlast
      exact Option.noConfusion hlast
    have hgl : (groupRows (List.insertionSort tsLe rows) k).getLast hne = rN := by
      have h := List.getLast?_eq_getLast _ hne
      rw [h] at hlast
      exact Option.some.inj hlast
    conv_lhs => rw [← List.dropLast_append_getLast hne]
    rw [List.map_append, hgl]
    simp only [List.map_cons, List.map_nil, hnone]
    exact lastSome_append_none _

theorem c10_last_skips_null_witness :
    (groupRows (List.insertionSort tsLe rowsNullLatest) keyXM).getLast? =
      some (mkN (some 28428480) "X" "M" none (some 2)) ∧
    (endingBalance rowsNullLatest keyXM =
      ((groupRows (List.insertionSort tsLe rowsNullLatest) keyXM).reverse.find?
        (fun r => r.assetBalance.isSome)).bind (fun r => r.assetBalance) ∧
     endingBalance rowsNullLatest keyXM =
      lastSome (((groupRows (List.insertionSort tsLe rowsNullLatest) keyXM).dropLast).map
        (fun r => r.assetBalance))) :=
  ⟨by decide,
    c10_last_skips_null rowsNullLatest keyXM
      (mkN (some 28428480) "X" "M" none (some 2)) (by decide) rfl⟩

/-! Lemmas about the aggregation stage. -/

theorem buildReport_ok_parts {nf : NFrame} {m : Int} {a inv : String} {rep : Report}
    (hok : buildReport nf m a inv = .ok rep) :
    rep.combined = combinedOf nf (filterStep nf m a inv) ∧
    rep.totals = totalsOf nf (combinedOf nf (filterStep nf m a inv)) := by
  unfold buildReport at hok
  by_cases h1 : nf.hasAsset = false
  · rw [if_pos h1] at hok; exact Except.noConfusion hok
  by_cases h2 : nf.hasInventory = false
  · rw [if_neg h1, if_pos h2] at hok; exact Except.noConfusion hok
  by_cases h3 : nf.hasAssetBalance = false
  · simp only [if_neg h1, if_neg h2, if_pos h3] at hok; exact Except.noConfusion hok
  by_cases h4 : nf.hasShortTermGainLoss = false
  · simp only [if_neg h1, if_neg h2, if_neg h3, if_pos h4] at hok
    exact Except.noConfusion hok
  by_cases h5 : nf.hasLongTermGainLoss = false
  · simp only [if_neg h1, if_neg h2, if_neg h3, if_neg h4, if_pos h5] at hok
    exact Except.noConfusion hok
  simp only [if_neg h1, if_neg h2, if_neg h3, if_neg h4, if_neg h5] at hok
  have h := Except.ok.inj hok
  rw [← h]
  exact ⟨rfl, rfl⟩

theorem mem_keysOf {rows : List NRow} {k : GroupKey} :
    k ∈ keysOf rows ↔ ∃ r ∈ rows, keyOf r = some k := by
  unfold keysOf
  rw [(List.perm_insertionSort keyLe _).mem_iff, List.mem_dedup, List.mem_filterMap]

theorem keysOf_nodup (rows : List NRow) : (keysOf rows).Nodup := by
  unfold keysOf
  exact ((List.perm_insertionSort keyLe _).nodup_iff).mpr (List.nodup_dedup _)

theorem find?_map_pair {κ : Type} [DecidableEq κ] {β : Type} (v : κ → β) (K : List κ)
    (k : κ) (hk : k ∈ K) :
    (K.map (fun k0 => (k0, v k0))).find? (fun e => e.1 = k) = some (k, v k) := by
  induction K with
  | nil => simp at hk
  | cons k0 K ih =>
    rw [List.map_cons]
    by_cases h : k0 = k
    · subst h
      rw [List.find?_cons_of_pos _ (by simp)]
    · rw [List.find?_cons_of_neg _ (by simp [h])]
      refine ih ?_
      rcases List.mem_cons.1 hk with h' | h'
      · exact absurd h'.symm h
      · exact h'

theorem aggRowOf_ending (nf : NFrame) (filtered : List NRow) (k : GroupKey)
    (hk : k ∈ keysOf filtered) :
    (aggRowOf nf filtered (balTableOf filtered) k).ending_balance =
      endingBalance filtered k := by
  show ((balTableOf filtered).find? (fun e => e.1 = k)).bind (fun e => e.2) = _
  unfold balTableOf
  rw [find?_map_pair (fun k0 => endingBalance filtered k0) _ k hk]
  rfl

theorem mem_filterStep {nf : NFrame} {m : Int} {a inv : String} {r : NRow}
    (hr : r ∈ filterStep nf m a inv) : r ∈ nf.rows ∧ r.month = some m := by
  unfold filterStep at hr
  have peel : ∀ rows : List NRow, r ∈ rows.filter (fun r => r.month = some m) →
      r ∈ nf.rows → False ∨ True := fun _ _ _ => Or.inr trivial
  by_cases h1 : a = "All" <;> by_cases h2 : inv = "All" <;>
    simp only [h1, h2, if_pos, if_neg, ite_true, ite_false, reduceIte] at hr
  · have h := List.mem_filter.1 hr
    exact ⟨h.1, by simpa using h.2⟩
  · have h0 := List.mem_filter.1 hr
    have h := List.mem_filter.1 h0.1
    exact ⟨h.1, by simpa using h.2⟩
  · have h0 := List.mem_filter.1 hr
    have h := List.mem_filter.1 h0.1
    exact ⟨h.1, by simpa using h.2⟩
  · have h0 := List.mem_filter.1 hr
    have h1' := List.mem_filter.1 h0.1
    have h := List.mem_filter.1 h1'.1
    exact ⟨h.1, by simpa using h.2⟩

/-- C4: in any successfully built report, every combined row whose
group's chronologically latest record has a present assetBalance shows
exactly that balance — in particular its ending balance is present, the
left join's unmatched branch being unreachable. -/
theorem c4_balance_present (nf : NFrame) (m : Int) (a inv : String) (rep : Report)
    (hok : buildReport nf m a inv = .ok rep) (row : AggRow)
    (hrow : row ∈ rep.combined) (rmax : NRow) (b : ℤ)
    (hl : latestRec (groupRows (filterStep nf m a inv)
      (row.month, row.asset, row.inventory)) = some rmax)
    (hb : rmax.assetBalance = some b) :
    row.ending_balance = some b := by
  have hcomb := (buildReport_ok_parts hok).1
  rw [hcomb] at hrow
  rcases List.mem_map.1 hrow with ⟨k, hkmem, hkeq⟩
  have hkey : (row.month, row.asset, row.inventory) = k := by
    rw [← hkeq]; rfl
  rw [hkey] at hl
  have hend : row.ending_balance = endingBalance (filterStep nf m a inv) k := by
    rw [← hkeq]
    exact aggRowOf_ending nf _ k hkmem
  rw [hend]
  exact endingBalance_of_latest _ k rmax b hl hb

theorem c4_balance_present_witness :
    buildReport nfMixed 24288 "All" "All" = .ok repMixed ∧
    rowY ∈ repMixed.combined ∧
    latestRec (groupRows (filterStep nfMixed 24288 "All" "All")
      (rowY.month, rowY.asset, rowY.inventory)) = some rmaxY ∧
    rmaxY.assetBalance = some 100 ∧
    rowY.ending_balance = some 100 := by
  have hcl : repMixed.combined = [rowY] := by decide
  have hmem : rowY ∈ repMixed.combined := by
    rw [hcl]; exact List.mem_singleton.mpr rfl
  exact ⟨rfl, hmem, by decide, rfl,
    c4_balance_present nfMixed 24288 "All" "All" repMixed rfl rowY hmem
      rmaxY 100 (by decide) rfl⟩

theorem load_data_ok_frame {parse : String → Option Int} {tzdb : String → Option Int}
    {df : RawFrame} {tz : String} {nf : NFrame} {w : Bool}
    (hload : load_data parse tzdb df tz = .ok (nf, w)) :
    nf = normOut parse tzdb df tz := by
  cases hT : df.hasTimestamp
  · unfold load_data at hload
    rw [hT] at hload
    simp at hload
  · cases hS : df.hasStatus
    · unfold load_data at hload
      simp only [hT, hS, Bool.true_eq_false, Bool.false_eq_true, reduceIte] at hload
      exact Except.noConfusion hload
    · rw [load_data_eq parse tzdb df tz hT hS] at hload
      have h := Except.ok.inj hload
      exact (congrArg Prod.fst h).symm

theorem normOut_month_instant {parse : String → Option Int} {tzdb : String → Option Int}
    {df : RawFrame} {tz : String} {r : NRow}
    (hr : r ∈ (normOut parse tzdb df tz).rows) (hm : r.month.isSome = true) :
    r.instant.isSome = true := by
  rcases List.mem_map.1 hr with ⟨r0, _, hEq⟩
  rw [← hEq] at hm ⊢
  rw [normRow_month] at hm
  rw [normRow_instant]
  cases h : r0.timestamp.bind parse
  · rw [h] at hm
    simp at hm
  · simp [h]

/-- C3 (amended): every gain/loss group key appears exactly once in the
combined output (its keys list is exactly the group-key list of the
filtered records, so no gain/loss group is lost by the left join), but
every record of every group of a normalized frame has month equal to
the selected month and a present (parseable) instant — so a group whose
records all have unparseable timestamps contributes no row at all, and
no absent ending balance arises that way. -/
theorem c3_join_total_groups_parseable (parse : String → Option Int)
    (tzdb : String → Option Int) (df : RawFrame) (tz : String) (nf : NFrame) (w : Bool)
    (m : Int) (a inv : String) (rep : Report)
    (hload : load_data parse tzdb df tz = .ok (nf, w))
    (hok : buildReport nf m a inv = .ok rep) :
    rep.combined.map (fun row => (row.month, row.asset, row.inventory)) =
      keysOf (filterStep nf m a inv) ∧
    ∀ r ∈ filterStep nf m a inv, r.month = some m ∧ r.instant.isSome = true := by
  constructor
  · rw [(buildReport_ok_parts hok).1]
    unfold combinedOf
    rw [List.map_map]
    exact (List.map_congr_left (fun k _ => rfl)).trans (List.map_id _)
  · intro r hr
    have hmem := mem_filterStep hr
    refine ⟨hmem.2, ?_⟩
    have hnf := load_data_ok_frame hload
    rw [hnf] at hmem
    exact normOut_month_instant hmem.1 (by rw [hmem.2]; rfl)

theorem c3_join_total_groups_parseable_witness :
    repMixed.combined.map (fun row => (row.month, row.asset, row.inventory)) =
      keysOf (filterStep nfMixed 24288 "All" "All") ∧
    ∀ r ∈ filterStep nfMixed 24288 "All" "All",
      r.month = some 24288 ∧ r.instant.isSome = true :=
  c3_join_total_groups_parseable parse0 tzdb0 dfMixed "UTC" nfMixed false
    24288 "All" "All" repMixed rfl rfl

/-- C3 counterexample: the mixed fixture contains a gain/loss group
(asset X, with a short-term gain of 5) whose only record has an
unparseable timestamp; contrary to the claim, the combined output has
no row at all for that group, and no output row has an absent ending
balance. -/
theorem c3_counterexample :
    nfMixed.rows.filter (fun r => r.asset = some "X") ≠ [] ∧
    (nfMixed.rows.filter (fun r => r.asset = some "X")).all
      (fun r => r.instant = none && r.shortTermGainLoss = some 5) = true ∧
    repMixed.combined.filter (fun row => row.asset = "X") = [] ∧
    repMixed.combined.all (fun row => row.ending_balance.isSome) = true := by
  refine ⟨by decide, by decide, by decide, by decide⟩

/-! Summation lemmas for the aggregation-additivity property. -/

theorem sum_map_add {κ : Type} (K : List κ) (g h : κ → ℤ) :
    (K.map (fun k => g k + h k)).sum = (K.map g).sum + (K.map h).sum := by
  induction K with
  | nil => simp
  | cons k K ih =>
    simp only [List.map_cons, List.sum_cons, ih]
    ring

theorem sum_ite_single {κ : Type} [DecidableEq κ] (K : List κ) (hK : K.Nodup)
    (k0 : κ) (hk : k0 ∈ K) (c : ℤ) :
    (K.map (fun k => if k0 = k then c else 0)).sum = c := by
  induction K with
  | nil => simp at hk
  | cons k1 K ih =>
    rw [List.nodup_cons] at hK
    rcases List.mem_cons.1 hk with h | h
    · subst h
      simp only [List.map_cons, List.sum_cons, if_pos rfl]
      have hzero : (K.map (fun k => if k0 = k then c else 0)).sum = 0 := by
        apply List.sum_eq_zero
        intro x hx
        rcases List.mem_map.1 hx with ⟨k, hkK, hke⟩
        rw [← hke, if_neg (fun he => hK.1 (by rw [he]; exact hkK))]
      rw [hzero]
      simp
    · have hne : k0 ≠ k1 := fun he => hK.1 (by rw [← he]; exact h)
      simp only [List.map_cons, List.sum_cons, if_neg hne]
      rw [ih hK.2 h]
      ring

theorem sum_partition {κ : Type} [DecidableEq κ] (K : List κ) (hK : K.Nodup)
    (rows : List NRow) (key : NRow → Option κ) (f : NRow → ℤ)
    (hcov : ∀ r ∈ rows, ∀ k, key r = some k → k ∈ K) :
    (K.map (fun k => ((rows.filter (fun r => key r = some k)).map f).sum)).sum =
      ((rows.filter (fun r => (key r).isSome)).map f).sum := by
  induction rows with
  | nil => simp
  | cons r rows ih =>
    have hcov' : ∀ r' ∈ rows, ∀ k, key r' = some k → k ∈ K :=
      fun r' hr' => hcov r' (List.mem_cons_of_mem _ hr')
    cases hkr : key r with
    | none =>
      have hstep : ∀ k ∈ K,
          (((r :: rows).filter (fun r => key r = some k)).map f).sum =
          ((rows.filter (fun r => key r = some k)).map f).sum := by
        intro k _
        rw [List.filter_cons]
        simp [hkr]
      rw [List.map_congr_left hstep, ih hcov', List.filter_cons]
      simp [hkr]
    | some k0 =>
      have hk0 : k0 ∈ K := hcov r (List.mem_cons_self _ _) k0 hkr
      have hstep : ∀ k ∈ K,
          (((r :: rows).filter (fun r => key r = some k)).map f).sum =
          (if k0 = k then f r else 0) +
            ((rows.filter (fun r => key r = some k)).map f).sum := by
        intro k _
        rw [List.filter_cons]
        by_cases h : k0 = k
        · subst h
          simp [hkr]
        · have hne : ¬ (key r = some k) := by
            rw [hkr]
            exact fun hc => h (Option.some.inj hc)
          simp [hne, h]
      rw [List.map_congr_left hstep,
        sum_map_add K (fun k => if k0 = k then f r else 0)
          (fun k => ((rows.filter (fun r => key r = some k)).map f).sum),
        sum_ite_single K hK k0 hk0 (f r), ih hcov', List.filter_cons]
      simp [hkr]

theorem buildReport_eq (nf : NFrame) (m : Int) (a inv : String)
    (hA : nf.hasAsset = true) (hI : nf.hasInventory = true)
    (hB : nf.hasAssetBalance = true) (hS : nf.hasShortTermGainLoss = true)
    (hL : nf.hasLongTermGainLoss = true) :
    buildReport nf m a inv = .ok
      { months := monthsDomain nf
        assets := assetsDomain nf
        inventories := inventoriesDomain nf
        combined := combinedOf nf (filterStep nf m a inv)
        totals := totalsOf nf (combinedOf nf (filterStep nf m a inv)) } := by
  unfold buildReport
  simp [hA, hI, hB, hS, hL]

theorem filterStep_all_all (nf : NFrame) (m : Int) :
    filterStep nf m "All" "All" = nf.rows.filter (fun r => r.month = some m) := by
  unfold filterStep
  simp

theorem filterStep_asset (nf : NFrame) (m : Int) (A : String) (hA : ¬ A = "All") :
    filterStep nf m A "All" =
      (nf.rows.filter (fun r => r.month = some m)).filter
        (fun r => r.asset = some A) := by
  unfold filterStep
  simp [hA]

theorem keyOf_isSome_asset {r : NRow} (h : (keyOf r).isSome = true) :
    r.asset.isSome = true := by
  unfold keyOf at h
  cases hm : r.month <;> cases ha : r.asset <;> cases hi : r.inventory <;>
    simp_all

theorem combined_sum_field (nf : NFrame) (filtered : List NRow)
    (proj : AggRow → ℤ) (cell : NRow → Option ℤ)
    (hproj : ∀ k, proj (aggRowOf nf filtered (balTableOf filtered) k) =
      ((filtered.filter (fun r => keyOf r = some k)).map
        (fun r => (cell r).getD 0)).sum) :
    ((combinedOf nf filtered).map proj).sum =
      ((filtered.filter (fun r => (keyOf r).isSome)).map
        (fun r => (cell r).getD 0)).sum := by
  unfold combinedOf
  rw [List.map_map]
  have h1 : List.map (proj ∘ aggRowOf nf filtered (balTableOf filtered)) (keysOf filtered)
      = List.map (fun k => ((filtered.filter (fun r => keyOf r = some k)).map
          (fun r => (cell r).getD 0)).sum) (keysOf filtered) :=
    List.map_congr_left (fun k _ => hproj k)
  rw [h1]
  exact sum_partition _ (keysOf_nodup filtered) filtered keyOf _
    (fun r hr k hk => mem_keysOf.2 ⟨r, hr, hk⟩)

theorem sum_over_assets (nf : NFrame) (P : Int) (cell : NRow → Option ℤ)
    (hAll : "All" ∉ assetsInPeriod nf P) :
    ((assetsInPeriod nf P).map (fun A =>
      (((filterStep nf P A "All").filter (fun r => (keyOf r).isSome)).map
        (fun r => (cell r).getD 0)).sum)).sum =
    (((filterStep nf P "All" "All").filter (fun r => (keyOf r).isSome)).map
      (fun r => (cell r).getD 0)).sum := by
  have hterm : ∀ A ∈ assetsInPeriod nf P,
      (((filterStep nf P A "All").filter (fun r => (keyOf r).isSome)).map
        (fun r => (cell r).getD 0)).sum =
      (((nf.rows.filter (fun r => r.month = some P)).filter
        (fun r => assetKey r = some A)).map (fun r => (cell r).getD 0)).sum := by
    intro A hAmem
    have hne : ¬ A = "All" := fun he => hAll (he ▸ hAmem)
    rw [filterStep_asset nf P A hne, List.filter_filter]
    have hpred : ∀ r ∈ nf.rows.filter (fun r => r.month = some P),
        ((keyOf r).isSome && (decide (r.asset = some A)))
          = decide (assetKey r = some A) := by
      intro r _
      by_cases hk : (keyOf r).isSome = true
      · simp [assetKey, hk]
      · have hk' : (keyOf r).isSome = false := by
          cases h : (keyOf r).isSome
          · rfl
          · exact absurd h hk
        simp [assetKey, hk']
    rw [List.filter_congr hpred]
  rw [List.map_congr_left hterm]
  have hcov : ∀ r ∈ nf.rows.filter (fun r => r.month = some P),
      ∀ A, assetKey r = some A → A ∈ assetsInPeriod nf P := by
    intro r hr A hkey
    unfold assetKey at hkey
    by_cases hk : (keyOf r).isSome = true
    · rw [if_pos hk] at hkey
      unfold assetsInPeriod
      rw [List.mem_dedup, List.mem_filterMap]
      exact ⟨r, hr, hkey⟩
    · rw [if_neg hk] at hkey
      exact Option.noConfusion hkey
  have hpart := sum_partition (assetsInPeriod nf P)
    (List.nodup_dedup _) (nf.rows.filter (fun r => r.month = some P))
    assetKey (fun r => (cell r).getD 0) hcov
  rw [hpart, filterStep_all_all]
  apply congrArg
  apply congrArg
  apply List.filter_congr
  intro r _
  by_cases hk : (keyOf r).isSome = true
  · have ha := keyOf_isSome_asset hk
    cases h : r.asset
    · rw [h] at ha
      exact absurd ha (by simp)
    · simp [assetKey, hk, h]
  · have hk' : (keyOf r).isSome = false := by
      cases h : (keyOf r).isSome
      · rfl
      · exact absurd h hk
    simp [assetKey, hk']

/-- C9 (amended): provided no asset identifier equals the sentinel
string All, summarizing the aggregate of the month-P data equals, for
every numeric total, the sum of the per-asset summaries over the assets
present in the month-P data (each per-asset run succeeding). -/
theorem c9_filter_aggregate_additive (nf : NFrame) (P : Int)
    (hA : nf.hasAsset = true) (hI : nf.hasInventory = true)
    (hB : nf.hasAssetBalance = true) (hS : nf.hasShortTermGainLoss = true)
    (hL : nf.hasLongTermGainLoss = true)
    (hAll : "All" ∉ assetsInPeriod nf P) :
    ∃ rep, buildReport nf P "All" "All" = .ok rep ∧
      (∀ A ∈ assetsInPeriod nf P, (buildReport nf P A "All").isOk = true) ∧
      rep.totals.shortTermGainLoss =
        ((assetsInPeriod nf P).map (fun A => stOf (buildReport nf P A "All"))).sum ∧
      rep.totals.longTermGainLoss =
        ((assetsInPeriod nf P).map (fun A => ltOf (buildReport nf P A "All"))).sum ∧
      (nf.hasImpairmentExpense = true →
        rep.totals.impairmentExpense =
          some (((assetsInPeriod nf P).map
            (fun A => ieOf (buildReport nf P A "All"))).sum)) ∧
      (nf.hasImpairmentReversal = true →
        rep.totals.impairmentReversal =
          some (((assetsInPeriod nf P).map
            (fun A => irOf (buildReport nf P A "All"))).sum)) := by
  refine ⟨_, buildReport_eq nf P "All" "All" hA hI hB hS hL, ?_, ?_, ?_, ?_, ?_⟩
  · intro A _
    rw [buildReport_eq nf P A "All" hA hI hB hS hL]
    rfl
  · show ((combinedOf nf (filterStep nf P "All" "All")).map
      (fun r => r.shortTermGainLoss)).sum = _
    rw [combined_sum_field nf _ _ (fun r => r.shortTermGainLoss) (fun k => rfl)]
    have hA' : ∀ A ∈ assetsInPeriod nf P, stOf (buildReport nf P A "All") =
        (((filterStep nf P A "All").filter (fun r => (keyOf r).isSome)).map
          (fun r => (r.shortTermGainLoss).getD 0)).sum := by
      intro A _
      rw [buildReport_eq nf P A "All" hA hI hB hS hL]
      show ((combinedOf nf (filterStep nf P A "All")).map
        (fun r => r.shortTermGainLoss)).sum = _
      exact combined_sum_field nf _ _ (fun r => r.shortTermGainLoss) (fun k => rfl)
    rw [List.map_congr_left hA']
    exact (sum_over_assets nf P (fun r => r.shortTermGainLoss) hAll).symm
  · show ((combinedOf nf (filterStep nf P "All" "All")).map
      (fun r => r.longTermGainLoss)).sum = _
    rw [combined_sum_field nf _ _ (fun r => r.longTermGainLoss) (fun k => rfl)]
    have hA' : ∀ A ∈ assetsInPeriod nf P, ltOf (buildReport nf P A "All") =
        (((filterStep nf P A "All").filter (fun r => (keyOf r).isSome)).map
          (fun r => (r.longTermGainLoss).getD 0)).sum := by
      intro A _
      rw [buildReport_eq nf P A "All" hA hI hB hS hL]
      show ((combinedOf nf (filterStep nf P A "All")).map
        (fun r => r.longTermGainLoss)).sum = _
      exact combined_sum_field nf _ _ (fun r => r.longTermGainLoss) (fun k => rfl)
    rw [List.map_congr_left hA']
    exact (sum_over_assets nf P (fun r => r.longTermGainLoss) hAll).symm
  · intro hIE
    show (if nf.hasImpairmentExpense = true then
        some (((combinedOf nf (filterStep nf P "All" "All")).map
          (fun r => r.impairmentExpense.getD 0)).sum) else none) = _
    rw [if_pos hIE]
    have hfield := combined_sum_field nf (filterStep nf P "All" "All")
      (fun r => r.impairmentExpense.getD 0) (fun r => r.impairmentExpense)
      (fun k => by
        show (if nf.hasImpairmentExpense = true then
          some (sumWith (fun r => r.impairmentExpense)
            (groupRows (filterStep nf P "All" "All") k)) else none).getD 0 = _
        rw [if_pos hIE]
        rfl)
    rw [hfield]
    have hA' : ∀ A ∈ assetsInPeriod nf P, ieOf (buildReport nf P A "All") =
        (((filterStep nf P A "All").filter (fun r => (keyOf r).isSome)).map
          (fun r => (r.impairmentExpense).getD 0)).sum := by
      intro A _
      rw [buildReport_eq nf P A "All" hA hI hB hS hL]
      show (if nf.hasImpairmentExpense = true then
          some (((combinedOf nf (filterStep nf P A "All")).map
            (fun r => r.impairmentExpense.getD 0)).sum) else none).getD 0 = _
      rw [if_pos hIE]
      show ((combinedOf nf (filterStep nf P A "All")).map
        (fun r => r.impairmentExpense.getD 0)).sum = _
      exact combined_sum_field nf _ _ (fun r => r.impairmentExpense)
        (fun k => by
          show (if nf.hasImpairmentExpense = true then
            some (sumWith (fun r => r.impairmentExpense)
              (groupRows (filterStep nf P A "All") k)) else none).getD 0 = _
          rw [if_pos hIE]
          rfl)
    rw [List.map_congr_left hA']
    exact congrArg some (sum_over_assets nf P (fun r => r.impairmentExpense) hAll).symm
  · intro hIR
    show (if nf.hasImpairmentReversal = true then
        some (((combinedOf nf (filterStep nf P "All" "All")).map
          (fun r => r.impairmentReversal.getD 0)).sum) else none) = _
    rw [if_pos hIR]
    have hfield := combined_sum_field nf (filterStep nf P "All" "All")
      (fun r => r.impairmentReversal.getD 0) (fun r => r.impairmentReversal)
      (fun k => by
        show (if nf.hasImpairmentReversal = true then
          some (sumWith (fun r => r.impairmentReversal)
            (groupRows (filterStep nf P "All" "All") k)) else none).getD 0 = _
        rw [if_pos hIR]
        rfl)
    rw [hfield]
    have hA' : ∀ A ∈ assetsInPeriod nf P, irOf (buildReport nf P A "All") =
        (((filterStep nf P A "All").filter (fun r => (keyOf r).isSome)).map
          (fun r => (r.impairmentReversal).getD 0)).sum := by
      intro A _
      rw [buildReport_eq nf P A "All" hA hI hB hS hL]
      show (if nf.hasImpairmentReversal = true then
          some (((combinedOf nf (filterStep nf P A "All")).map
            (fun r => r.impairmentReversal.getD 0)).sum) else none).getD 0 = _
      rw [if_pos hIR]
      show ((combinedOf nf (filterStep nf P A "All")).map
        (fun r => r.impairmentReversal.getD 0)).sum = _
      exact combined_sum_field nf _ _ (fun r => r.impairmentReversal)
        (fun k => by
          show (if nf.hasImpairmentReversal = true then
            some (sumWith (fun r => r.impairmentReversal)
              (groupRows (filterStep nf P A "All") k)) else none).getD 0 = _
          rw [if_pos hIR]
          rfl)
    rw [List.map_congr_left hA']
    exact congrArg some (sum_over_assets nf P (fun r => r.impairmentReversal) hAll).symm

/-- C9 counterexample: on a concrete normalized frame containing an
asset literally named All (next to asset B in the same month), the
summary of the whole month is 3 while the per-asset runs sum to 5,
because selecting All applies no asset constraint and double counts.
The claim as stated is therefore false. -/
theorem c9_counterexample :
    stOf (buildReport nfAllAsset 24288 "All" "All") ≠
      ((assetsInPeriod nfAllAsset 24288).map
        (fun A => stOf (buildReport nfAllAsset 24288 A "All"))).sum := by
  decide

theorem c9_filter_aggregate_additive_witness :
    "All" ∉ assetsInPeriod nfMixed 24288 ∧
    (∃ rep, buildReport nfMixed 24288 "All" "All" = .ok rep ∧
      (∀ A ∈ assetsInPeriod nfMixed 24288,
        (buildReport nfMixed 24288 A "All").isOk = true) ∧
      rep.totals.shortTermGainLoss =
        ((assetsInPeriod nfMixed 24288).map
          (fun A => stOf (buildReport nfMixed 24288 A "All"))).sum ∧
      rep.totals.longTermGainLoss =
        ((assetsInPeriod nfMixed 24288).map
          (fun A => ltOf (buildReport nfMixed 24288 A "All"))).sum ∧
      (nfMixed.hasImpairmentExpense = true →
        rep.totals.impairmentExpense =
          some (((assetsInPeriod nfMixed 24288).map
            (fun A => ieOf (buildReport nfMixed 24288 A "All"))).sum)) ∧
      (nfMixed.hasImpairmentReversal = true →
        rep.totals.impairmentReversal =
          some (((assetsInPeriod nfMixed 24288).map
            (fun A => irOf (buildReport nfMixed 24288 A "All"))).sum))) :=
  ⟨by decide,
    c9_filter_aggregate_additive nfMixed 24288 rfl rfl rfl rfl rfl (by decide)⟩
